import Mathlib

/-!
Verification development for the web-modem repository.

The definitions below are a shallow embedding of the Go sources:
* `src/modem/const.go` — the modem package: the SMS codec
  (`encodeUCS2`, `decodeUCS2Hex`, `decodeHexSMS`), the listing pipeline
  (`ListSMS`), the command loop (`sendRawCommand`), `DeleteSMS` and
  `GetSignalStrength` (both the text-mode variant at lines 589-606 and the
  PDU-mode variant at lines 228-250 are embedded);
* `src/services/serial_manager.go` — the connection pool (`Scan`);
* `src/services/webhook.go` — the event bus (`Broadcast`, `Subscribe`
  and the cancel closure it returns).

Go strings are modelled as `List Char` (Go ranges over runes exactly where
the sources do: `[]rune`, `utf16.Encode/Decode`); Go `int` values that are
only ever byte-derived (`ref`, `total`, `seq`) are `Nat`, the message index
parsed by `strconv.Atoi` is `Int`.
-/

/-! ## String helpers (strings.TrimSpace, strings.Contains, strings.Split, ...) -/

/-- unicode.IsSpace, as used by strings.TrimSpace: ASCII whitespace plus
NEL, NBSP and the Unicode Zs code points. -/
def isSpaceGo (c : Char) : Bool :=
  let v := c.toNat
  decide (v = 9 ∨ v = 10 ∨ v = 11 ∨ v = 12 ∨ v = 13 ∨ v = 32 ∨ v = 0x85 ∨
    v = 0xA0 ∨ v = 0x1680 ∨ (0x2000 ≤ v ∧ v ≤ 0x200A) ∨ v = 0x2028 ∨
    v = 0x2029 ∨ v = 0x202F ∨ v = 0x205F ∨ v = 0x3000)

/-- strings.TrimSpace: drop whitespace from both ends. -/
def trimSpace (s : List Char) : List Char :=
  ((s.dropWhile isSpaceGo).reverse.dropWhile isSpaceGo).reverse

/-- List-prefix test (strings.HasPrefix on rune lists). -/
def isPrefixList : List Char → List Char → Bool
  | [], _ => true
  | _ :: _, [] => false
  | a :: as, b :: bs => a == b && isPrefixList as bs

/-- strings.Contains: `containsSub pat s` holds iff `pat` occurs as a
contiguous run inside `s`. -/
def containsSub (pat : List Char) : List Char → Bool
  | [] => isPrefixList pat []
  | c :: t => isPrefixList pat (c :: t) || containsSub pat t

/-- Index of the first occurrence of `sep` in the list, if any. -/
def findSepIdx (sep : List Char) : List Char → Option Nat
  | [] => if isPrefixList sep [] then some 0 else none
  | c :: t =>
    if isPrefixList sep (c :: t) then some 0
    else (findSepIdx sep t).map (fun k => k + 1)

/-- Recursion core of `splitOnSub`. The fuel only bounds the recursion
depth structurally: every step consumes at least one character beyond the
cut point, so `s.length` steps always suffice and the fuel-out branch is
unreachable from `splitOnSub`. -/
def splitOnSubAux (sep0 : Char) (sepR : List Char) :
    Nat → List Char → List (List Char)
  | 0, s => [s]
  | fuel + 1, s =>
    match findSepIdx (sep0 :: sepR) s with
    | none => [s]
    | some i =>
      s.take i ::
        splitOnSubAux sep0 sepR fuel (s.drop (i + (sep0 :: sepR).length))

/-- strings.Split with a non-empty separator `sep0 :: sepR`: cut around
every non-overlapping occurrence of the separator. -/
def splitOnSub (sep0 : Char) (sepR : List Char) (s : List Char) :
    List (List Char) :=
  splitOnSubAux sep0 sepR s.length s

/-- strings.SplitN with n = 2 and a one-character separator: split at the
first occurrence only. -/
def splitN2 (sep : Char) : List Char → List (List Char)
  | [] => [[]]
  | c :: t =>
    if c = sep then [[], t]
    else
      match splitN2 sep t with
      | [] => [[c]]
      | x :: rest => (c :: x) :: rest

/-- strings.Split with a one-character separator. -/
def splitOnChar (sep : Char) : List Char → List (List Char)
  | [] => [[]]
  | c :: t =>
    if c = sep then [] :: splitOnChar sep t
    else
      match splitOnChar sep t with
      | [] => [[c]]
      | x :: rest => (c :: x) :: rest

/-- strings.TrimSuffix: remove one trailing copy of `suf` when present. -/
def trimSuffixL (suf s : List Char) : List Char :=
  if isPrefixList suf.reverse s.reverse then s.take (s.length - suf.length)
  else s

/-- strings.Trim with the one-character cutset `"` (used on the +CMGL
metadata fields). -/
def trimQuote (s : List Char) : List Char :=
  ((s.dropWhile (fun c => c == '"')).reverse.dropWhile
    (fun c => c == '"')).reverse

/-- Decimal-digit run parser used by `atoiOr0`. -/
def digitsToNatAux (acc : Nat) : List Char → Option Nat
  | [] => some acc
  | c :: t =>
    if 48 ≤ c.toNat ∧ c.toNat ≤ 57 then
      digitsToNatAux (acc * 10 + (c.toNat - 48)) t
    else none

/-- strconv.Atoi whose error is discarded by the caller (`idx, _ :=
strconv.Atoi(...)`): a parse failure leaves the zero value. Overflow of the
64-bit Go int is not modelled (listing indices are tiny). -/
def atoiOr0 (s : List Char) : Int :=
  match s with
  | [] => 0
  | c :: t =>
    if c = '-' then
      match digitsToNatAux 0 t with
      | some n => -(n : Int)
      | none => 0
    else if c = '+' then
      match digitsToNatAux 0 t with
      | some n => (n : Int)
      | none => 0
    else
      match digitsToNatAux 0 (c :: t) with
      | some n => (n : Int)
      | none => 0

/-! ## Hex encoding and decoding (encoding/hex, fmt %04X) -/

/-- Value of one hex digit, accepting 0-9, a-f and A-F as
encoding/hex does. -/
def hexDigitVal (c : Char) : Option Nat :=
  let v := c.toNat
  if 48 ≤ v ∧ v ≤ 57 then some (v - 48)
  else if 97 ≤ v ∧ v ≤ 102 then some (v - 87)
  else if 65 ≤ v ∧ v ≤ 70 then some (v - 55)
  else none

/-- hex.DecodeString: pairs of digits to bytes; odd length or an invalid
digit is an error (`none`). -/
def hexDecode : List Char → Option (List Nat)
  | [] => some []
  | [_] => none
  | c1 :: c2 :: rest =>
    match hexDigitVal c1, hexDigitVal c2, hexDecode rest with
    | some h, some l, some bs => some ((16 * h + l) :: bs)
    | _, _, _ => none

/-- Lower-case hex digit for a value below 16 (hex.EncodeToString). -/
def hexDigitLower (n : Nat) : Char :=
  if n < 10 then Char.ofNat (48 + n) else Char.ofNat (87 + n)

/-- Upper-case hex digit for a value below 16 (fmt %X). -/
def hexDigitUpper (n : Nat) : Char :=
  if n < 10 then Char.ofNat (48 + n) else Char.ofNat (55 + n)

/-- hex.EncodeToString over a byte list. -/
def hexEncodeLower (bs : List Nat) : List Char :=
  bs.flatMap (fun b => [hexDigitLower (b / 16 % 16), hexDigitLower (b % 16)])

/-- fmt.Sprintf %04X of a UTF-16 code unit (always below 0x10000, so the
width is exactly four digits). -/
def hex4Upper (u : Nat) : List Char :=
  [hexDigitUpper (u / 4096 % 16), hexDigitUpper (u / 256 % 16),
   hexDigitUpper (u / 16 % 16), hexDigitUpper (u % 16)]

/-! ## UTF-16 (unicode/utf16) -/

/-- utf16.Encode of one rune. Lean `Char` is a Unicode scalar value, so the
replacement-character branch for invalid runes cannot arise. -/
def utf16EncodeChar (c : Char) : List Nat :=
  let v := c.toNat
  if v < 0x10000 then [v]
  else [0xD800 + (v - 0x10000) / 0x400, 0xDC00 + (v - 0x10000) % 0x400]

/-- utf16.Encode of a rune list. -/
def utf16Encode (s : List Char) : List Nat :=
  s.flatMap utf16EncodeChar

/-- utf16.Decode: surrogate pairs combine, an unpaired surrogate becomes
U+FFFD, any other unit is its own code point. -/
def utf16Decode : List Nat → List Char
  | [] => []
  | [u] =>
    if (0xD800 ≤ u ∧ u < 0xDC00) ∨ (0xDC00 ≤ u ∧ u < 0xE000) then
      [Char.ofNat 0xFFFD]
    else [Char.ofNat u]
  | u :: u2 :: rest =>
    if 0xD800 ≤ u ∧ u < 0xDC00 then
      if 0xDC00 ≤ u2 ∧ u2 < 0xE000 then
        Char.ofNat (0x10000 + (u - 0xD800) * 0x400 + (u2 - 0xDC00)) ::
          utf16Decode rest
      else Char.ofNat 0xFFFD :: utf16Decode (u2 :: rest)
    else if 0xDC00 ≤ u ∧ u < 0xE000 then
      Char.ofNat 0xFFFD :: utf16Decode (u2 :: rest)
    else Char.ofNat u :: utf16Decode (u2 :: rest)

/-- Big-endian 16-bit units from a byte list (`u16[i] = b[2i]<<8 | b[2i+1]`;
the even-length guard in the callers makes the odd tail unreachable). -/
def beUnits : List Nat → List Nat
  | b1 :: b2 :: rest => (256 * b1 + b2) :: beUnits rest
  | _ => []

/-! ## The SMS codec (src/modem/const.go lines 703-757) -/

/-- decodeUCS2Hex (const.go lines 746-757): trim, hex-decode, require an
even byte count, then decode as UTF-16BE; on any failure return the
trimmed input unchanged. -/
def decodeUCS2Hex (s : List Char) : List Char :=
  let t := trimSpace s
  match hexDecode t with
  | none => t
  | some b => if b.length % 2 ≠ 0 then t else utf16Decode (beUnits b)

/-- decodeHexSMS (const.go lines 710-735): trim and hex-decode the payload
(`hexDecode` fails exactly when Go's `hex.DecodeString` errors or the
length is odd, so the source's two-part guard is one test here); recognise
the two concatenation UDH patterns `05 00 03 ref total seq` and
`06 08 04 refHi refLo total seq`; require the remainder to have even
length; re-encode the remainder as hex and decode it via `decodeUCS2Hex`.
Result: (text, ref, total, seq). -/
def decodeHexSMS (content : List Char) : List Char × Nat × Nat × Nat :=
  let content := trimSpace content
  match hexDecode content with
  | none => (content, 0, 1, 1)
  | some b =>
    let start :=
      if 6 < b.length ∧ b.getD 0 0 = 5 ∧ b.getD 1 0 = 0 ∧ b.getD 2 0 = 3 then
        (6, b.getD 3 0, b.getD 4 0, b.getD 5 0)
      else if 7 < b.length ∧ b.getD 0 0 = 6 ∧ b.getD 1 0 = 8 ∧
          b.getD 2 0 = 4 then
        (7, 256 * b.getD 3 0 + b.getD 4 0, b.getD 5 0, b.getD 6 0)
      else (0, 0, 1, 1)
    match start with
    | (offset, ref, total, seq) =>
      if (b.length - offset) % 2 ≠ 0 then (content, 0, 1, 1)
      else (decodeUCS2Hex (hexEncodeLower (b.drop offset)), ref, total, seq)

/-- encodeUCS2 (const.go lines 737-744): UTF-16 code units of the text,
each printed as four upper-case hex digits. -/
def encodeUCS2 (s : List Char) : List Char :=
  (utf16Encode s).flatMap hex4Upper

/-! ## The listing pipeline (src/modem/const.go lines 608-673, ListSMS) -/

/-- One physical SMS record as parsed from a +CMGL chunk, together with the
concatenation metadata extracted by `decodeHexSMS`. -/
structure SmsPart where
  index : Int
  status : List Char
  number : List Char
  time : List Char
  msg : List Char
  ref : Nat
  total : Nat
  seq : Nat
deriving DecidableEq, Repr

/-- The user-facing SMS value built by ListSMS. -/
structure SMS where
  index : Int
  status : List Char
  number : List Char
  time : List Char
  message : List Char
deriving DecidableEq, Repr

/-- The SMS carried inside a `Part`. -/
def SmsPart.toSMS (p : SmsPart) : SMS :=
  ⟨p.index, p.status, p.number, p.time, p.msg⟩

/-- Go builds the merge key as `fmt.Sprintf("%s_%d", p.Number, p.ref)`;
since `ref` prints as a decimal numeral the key determines the pair
(number, ref) uniquely, so the pair itself is used as the key here. -/
def partKey (p : SmsPart) : List Char × Nat :=
  (p.number, p.ref)

/-- Stable insertion sort (deterministic stand-in for Go's sort.Slice,
whose order on equal keys is unspecified). -/
def insertLe {α : Type} (le : α → α → Bool) (x : α) : List α → List α
  | [] => [x]
  | y :: t => if le x y then x :: y :: t else y :: insertLe le x t

/-- Sort with the given `le` test, by insertion. -/
def sortLe {α : Type} (le : α → α → Bool) (l : List α) : List α :=
  l.foldr (insertLe le) []

/-- The +CMGL token the listing response is split on ("+CMGL: "). -/
def cmglSep : List Char := "+CMGL: ".toList

/-- The success token ("OK"). -/
def okTok : List Char := "OK".toList

/-- The error token ("ERROR"). -/
def errTok : List Char := "ERROR".toList

/-- The prompt token (">"). -/
def promptTok : List Char := ">".toList

/-- Parse one chunk of the listing response (const.go lines 619-641):
split off the metadata line, require at least five comma-separated fields,
read the index with `strconv.Atoi` (error ignored), strip a trailing "OK"
from the payload, and decode it with `decodeHexSMS`. `none` models the
`continue` branches. -/
def parseChunk (chunk : List Char) : Option SmsPart :=
  match splitN2 '\n' chunk with
  | [l0, l1] =>
    let fields := splitOnChar ',' (trimSpace l0)
    if fields.length < 5 then none
    else
      let idx := atoiOr0 (trimSpace (fields.getD 0 []))
      let content := trimSpace (trimSuffixL okTok (trimSpace l1))
      match decodeHexSMS content with
      | (txt, ref, tot, seq) =>
        some ⟨idx, trimQuote (fields.getD 1 []), trimQuote (fields.getD 2 []),
          trimQuote (fields.getD 4 []), txt, ref, tot, seq⟩
  | _ => none

/-- All parts decoded from a listing response: split on "+CMGL: ", skip the
leading chunk, drop chunks the source `continue`s over. -/
def parseParts (resp : List Char) : List SmsPart :=
  ((splitOnSub '+' ("CMGL: ".toList) resp).drop 1).filterMap parseChunk

/-- Pass-through stage: parts with total ≤ 1 go to the result unmerged, in
input order. -/
def passThrough (parts : List SmsPart) : List SMS :=
  (parts.filter (fun p => p.total ≤ 1)).map SmsPart.toSMS

/-- Keys of the multi-part groups, in first-appearance order (a
deterministic stand-in for Go's map iteration order; which entries exist is
order-independent). -/
def groupKeys (parts : List SmsPart) : List (List Char × Nat) :=
  parts.foldl
    (fun ks p =>
      if p.total ≤ 1 then ks
      else if partKey p ∈ ks then ks else ks ++ [partKey p]) []

/-- The (seq, message) fragments collected under one key, in input order —
exactly the slice Go appends to `merged[key]`. -/
def groupFrags (parts : List SmsPart) (k : List Char × Nat) : List (Nat × List Char) :=
  (parts.filter (fun p => decide (1 < p.total) && (partKey p == k))).map
    (fun p => (p.seq, p.msg))

/-- Concatenation of a group's fragments in ascending seq order. -/
def concatFrags (parts : List SmsPart) (k : List Char × Nat) : List Char :=
  ((sortLe (fun a b => a.1 ≤ b.1) (groupFrags parts k)).map Prod.snd).flatten

/-- The merged-message stage (const.go lines 656-669): for each group key,
look for the first part — of any total — whose key matches and whose seq is
1; if found, emit its SMS with the concatenated message, else emit
nothing. -/
def mergedList (parts : List SmsPart) : List SMS :=
  (groupKeys parts).filterMap
    (fun k =>
      match parts.find? (fun p => (partKey p == k) && (p.seq == 1)) with
      | some p => some { p.toSMS with message := concatFrags parts k }
      | none => none)

/-- The merge stage of ListSMS over decoded fragments: pass-throughs in
input order, then the merged groups, finally sorted by index (Go's
sort.Slice; stable insertion sort as its deterministic stand-in). -/
def mergeParts (parts : List SmsPart) : List SMS :=
  sortLe (fun a b => decide (a.index ≤ b.index))
    (passThrough parts ++ mergedList parts)

/-- ListSMS (const.go lines 608-673) after the AT exchange: parse the
listing response and merge concatenated messages. -/
def listSMS (resp : List Char) : List SMS :=
  mergeParts (parseParts resp)

/-! ## The command loop (src/modem/const.go lines 508-551) -/

/-- One `port.Read` against the link: `dt` is the wall-clock time the
iteration consumes (milliseconds, at least one in any run), `data` the
bytes delivered (`n > 0` iff nonempty), `rerr` the error value —
`some true` is io.EOF, `some false` any other read error. -/
structure ReadEv where
  dt : Nat
  data : List Char
  rerr : Option Bool
deriving DecidableEq, Repr

/-- Outcome of `sendRawCommand`. -/
inductive CmdRes where
  | ok (resp : List Char)
  | timeoutErr
  | readErr
deriving DecidableEq, Repr

/-- errorSleep = 100 ms (const.go line 36). -/
def errorSleep : Nat := 100

/-- The terminal-token scan of the accumulated response: "OK", "ERROR" or
">" anywhere in the buffer (const.go line 536). -/
def hasToken (s : List Char) : Bool :=
  containsSub okTok s || containsSub errTok s || containsSub promptTok s

/-- The read loop of sendRawCommand (const.go lines 526-550), with the link
given as a stream of read results indexed by read count. Each iteration
first compares the elapsed time against the timeout, then reads; on data it
appends and returns the trimmed buffer once a terminal token is present; on
io.EOF it sleeps `errorSleep` and retries; on another error it returns the
(untrimmed) buffer when nonempty, else the error. `fuel` bounds the
unfolding; `none` means the loop was still running after `fuel`
iterations. -/
def sendLoop (timeout : Nat) (reads : Nat → ReadEv) :
    Nat → Nat → Nat → List Char → Option CmdRes
  | 0, _, _, _ => none
  | fuel + 1, i, elapsed, acc =>
    if timeout < elapsed then some CmdRes.timeoutErr
    else
      let ev := reads i
      let acc2 := acc ++ ev.data
      if !ev.data.isEmpty && hasToken acc2 then
        some (CmdRes.ok (trimSpace acc2))
      else
        match ev.rerr with
        | some true =>
          sendLoop timeout reads fuel (i + 1) (elapsed + ev.dt + errorSleep) acc2
        | some false =>
          if 0 < acc2.length then some (CmdRes.ok acc2) else some CmdRes.readErr
        | none => sendLoop timeout reads fuel (i + 1) (elapsed + ev.dt) acc2

/-- sendRawCommand after a successful write: run the read loop from an
empty buffer. The command text and suffix do not influence the read path
and are not parameters of the model. -/
def sendRawCommand (timeout : Nat) (reads : Nat → ReadEv) (fuel : Nat) :
    Option CmdRes :=
  sendLoop timeout reads fuel 0 0 []

/-- SendATCommand (const.go lines 509-511): sendRawCommand with a one
second (1000 ms) timeout. -/
def sendATCommand (reads : Nat → ReadEv) (fuel : Nat) : Option CmdRes :=
  sendRawCommand 1000 reads fuel

/-- DeleteSMS (const.go lines 686-689): issue the delete-by-index command
and return only the error; `true` models a nil error (reported success).
The index shapes the command string but not the read path. -/
def deleteSMS (index : Int) (reads : Nat → ReadEv) (fuel : Nat) : Bool :=
  match sendATCommand reads fuel with
  | some (CmdRes.ok _) => true
  | _ => false

/-- Response bytes accumulated by the first `i` reads. -/
def accUpTo (reads : Nat → ReadEv) (i : Nat) : List Char :=
  (List.range i).flatMap (fun j => (reads j).data)

/-! ## Signal strength (src/modem/const.go lines 589-606 and 228-250) -/

/-- The parsed +CSQ reading. -/
structure SignalStrength where
  rssi : Int
  qual : Int
  dbm : String
deriving DecidableEq, Repr

/-- GetSignalStrength of the text-mode service (const.go lines 589-606),
after `fmt.Sscanf` has produced rssi and qual: the dBm string is
`fmt.Sprintf("%d dBm", -113+rssi*2)` with no range check. -/
def getSignalStrengthText (rssi qual : Int) : SignalStrength :=
  ⟨rssi, qual, toString (-113 + rssi * 2) ++ " dBm"⟩

/-- GetSignalStrength of the PDU-mode service (const.go lines 228-250),
after `fmt.Sscanf`: dBm is "unknown" unless 0 ≤ rssi ≤ 31. -/
def getSignalStrengthPdu (rssi qual : Int) : SignalStrength :=
  ⟨rssi, qual,
    if 0 ≤ rssi ∧ rssi ≤ 31 then toString (-113 + rssi * 2) ++ " dBm"
    else "unknown"⟩

/-! ## The connection pool (src/services/serial_manager.go lines 34-63) -/

/-- The port record Scan returns for each registered device. -/
structure SerialPort where
  name : List Char
  path : List Char
  connected : Bool
deriving DecidableEq, Repr

/-- The candidate loop of Scan: fold over the globbed paths; a path
already in the pool is skipped outright, otherwise `NewSerialService` is
attempted (`openOK` — deterministic while no device is attached or
detached) and registered on success. The second component records every
path for which an open/verify attempt was made. -/
def scanFold (pool : List (List Char)) (cands : List (List Char))
    (openOK : List Char → Bool) : List (List Char) × List (List Char) :=
  cands.foldl
    (fun st p =>
      if p ∈ st.1 then st
      else ((if openOK p then st.1 ++ [p] else st.1), st.2 ++ [p]))
    (pool, [])

/-- The registry contents after one Scan. -/
def scanPool (pool : List (List Char)) (cands : List (List Char))
    (openOK : List Char → Bool) : List (List Char) :=
  (scanFold pool cands openOK).1

/-- The paths Scan attempted to open (and, on success, verify and start)
during one call. -/
def scanAttempts (pool : List (List Char)) (cands : List (List Char))
    (openOK : List Char → Bool) : List (List Char) :=
  (scanFold pool cands openOK).2

/-- The port list Scan returns (serial_manager.go lines 54-61): one entry
per registry key, always with Connected = true. -/
def scanPorts (pool : List (List Char)) (cands : List (List Char))
    (openOK : List Char → Bool) : List SerialPort :=
  (scanPool pool cands openOK).map (fun n => ⟨n, n, true⟩)

/-! ## The event bus (src/services/webhook.go lines 32-81) -/

/-- A subscriber queue: the Go channel `make(chan string, cap)`, identified
by `id`, holding its buffered messages. -/
structure Chan where
  id : Nat
  cap : Nat
  buf : List (List Char)
deriving DecidableEq, Repr

/-- The event-listener state: the registered queues plus, as
instrumentation of Go channel semantics, the ids that have been closed
(closing a closed channel panics). -/
structure Bus where
  pool : List Chan
  closed : List Nat
deriving DecidableEq, Repr

/-- The non-blocking send `select { case ch <- msg: default: }`: enqueue
when the buffer has free capacity, silently drop otherwise. -/
def trySend (msg : List Char) (c : Chan) : Chan :=
  if c.buf.length < c.cap then { c with buf := c.buf ++ [msg] } else c

/-- Broadcast (webhook.go lines 48-59): attempt a non-blocking send to
every registered queue. -/
def broadcastBus (msg : List Char) (b : Bus) : Bus :=
  { b with pool := b.pool.map (trySend msg) }

/-- Subscribe (webhook.go lines 63-72): a non-positive buffer size falls
back to 100; a fresh queue with that capacity is registered. `fresh` is the
identity of the newly created channel. -/
def subscribeBus (buffer : Int) (fresh : Nat) (b : Bus) : Chan × Bus :=
  let cap := if buffer ≤ 0 then (100 : Int) else buffer
  let c : Chan := ⟨fresh, cap.toNat, []⟩
  (c, { b with pool := b.pool ++ [c] })

/-- The cancel closure returned by Subscribe (webhook.go lines 73-80): if
the queue is still registered, remove it and close it; otherwise do
nothing. `none` models the panic Go raises on closing an already-closed
channel — it is unreachable from states where the queue is not yet
closed. -/
def cancelBus (ch : Nat) (b : Bus) : Option Bus :=
  if b.pool.any (fun c => c.id == ch) then
    if ch ∈ b.closed then none
    else some ⟨b.pool.filter (fun c => c.id != ch), b.closed ++ [ch]⟩
  else some b


/-- The byte sequence underlying encodeUCS2's hex output: each UTF-16 code
unit split big-endian into two bytes. -/
def ucs2Bytes (s : List Char) : List Nat :=
  (utf16Encode s).flatMap (fun u => [u / 256, u % 256])

/-- The concatenation-header test of decodeHexSMS, as a predicate on the
hex-decoded payload bytes. -/
def udhHeader (b : List Nat) : Bool :=
  (decide (6 < b.length) && (b.getD 0 0 == 5) && (b.getD 1 0 == 0) &&
    (b.getD 2 0 == 3)) ||
  (decide (7 < b.length) && (b.getD 0 0 == 6) && (b.getD 1 0 == 8) &&
    (b.getD 2 0 == 4))

/-! ## Concrete exhibits (inputs used by counterexamples and witnesses) -/

/-- A listing response holding fragments 1 and 3 of a three-part message
from "+123" with reference 7 (sequence 2 is absent). -/
def respDemo : List Char :=
  ("+CMGL: 5,\"REC READ\",\"+123\",,\"T1\"\n05000307030100410042\r\n" ++
   "+CMGL: 6,\"REC READ\",\"+123\",,\"T2\"\n05000307030300430044\r\n\r\nOK\r\n").toList

/-- A link whose first read delivers "ERROR" and reports no error. -/
def readsERR : Nat → ReadEv := fun i =>
  if i = 0 then ⟨1, ("ERROR".toList), none⟩ else ⟨1, [], none⟩

/-- A link that keeps returning no data and no error, each read taking one
millisecond. -/
def readsSilent : Nat → ReadEv := fun _ => ⟨1, [], none⟩

/-- A text whose UCS2 byte encoding starts with the 05 00 03 concatenation
header pattern. -/
def udhSpoof : List Char := [Char.ofNat 0x500, Char.ofNat 0x300, 'A', 'B']

/-! ## Pool lemmas (Scan) -/

theorem scanFold_pool_mono (ok : List Char → Bool) :
    ∀ (cands : List (List Char)) (st : List (List Char) × List (List Char))
      (p : List Char), p ∈ st.1 →
      p ∈ (cands.foldl
        (fun st p =>
          if p ∈ st.1 then st
          else ((if ok p then st.1 ++ [p] else st.1), st.2 ++ [p])) st).1 := by
  intro cands
  induction cands with
  | nil => intro st p hp; simpa using hp
  | cons c cs ih =>
    intro st p hp
    simp only [List.foldl_cons]
    apply ih
    by_cases hc : c ∈ st.1
    · simpa [hc] using hp
    · by_cases ho : ok c
      · simp [hc, ho]
        exact Or.inl hp
      · simpa [hc, ho] using hp

theorem scanFold_pool_of_ok (ok : List Char → Bool) :
    ∀ (cands : List (List Char)) (st : List (List Char) × List (List Char))
      (p : List Char), p ∈ cands → ok p = true →
      p ∈ (cands.foldl
        (fun st p =>
          if p ∈ st.1 then st
          else ((if ok p then st.1 ++ [p] else st.1), st.2 ++ [p])) st).1 := by
  intro cands
  induction cands with
  | nil => intro st p hp; simp at hp
  | cons c cs ih =>
    intro st p hp ho
    simp only [List.foldl_cons]
    rcases List.mem_cons.mp hp with rfl | hmem
    · by_cases hc : p ∈ st.1
      · simp only [hc, if_true]
        exact scanFold_pool_mono ok cs st p hc
      · apply scanFold_pool_mono ok cs
        simp [hc, ho]
    · exact ih _ p hmem ho

theorem scanFold_pool_noop (ok : List Char → Bool) :
    ∀ (cands : List (List Char)) (st : List (List Char) × List (List Char)),
      (∀ p ∈ cands, p ∈ st.1 ∨ ok p = false) →
      (cands.foldl
        (fun st p =>
          if p ∈ st.1 then st
          else ((if ok p then st.1 ++ [p] else st.1), st.2 ++ [p])) st).1 =
        st.1 := by
  intro cands
  induction cands with
  | nil => intro st _; rfl
  | cons c cs ih =>
    intro st hall
    simp only [List.foldl_cons]
    rcases hall c (List.mem_cons_self c cs) with hc | ho
    · rw [if_pos hc]
      exact ih st (fun p hp => hall p (List.mem_cons_of_mem c hp))
    · by_cases hc : c ∈ st.1
      · rw [if_pos hc]
        exact ih st (fun p hp => hall p (List.mem_cons_of_mem c hp))
      · rw [if_neg hc, ho]
        simp only [if_neg (Bool.false_ne_true)]
        exact ih _ (fun p hp => hall p (List.mem_cons_of_mem c hp))

theorem scanFold_attempts_not_in_pool (ok : List Char → Bool) :
    ∀ (cands : List (List Char)) (st : List (List Char) × List (List Char))
      (q : List Char),
      q ∈ (cands.foldl
        (fun st p =>
          if p ∈ st.1 then st
          else ((if ok p then st.1 ++ [p] else st.1), st.2 ++ [p])) st).2 →
      q ∈ st.2 ∨ q ∉ st.1 := by
  intro cands
  induction cands with
  | nil => intro st q hq; exact Or.inl hq
  | cons c cs ih =>
    intro st q hq
    simp only [List.foldl_cons] at hq
    by_cases hc : c ∈ st.1
    · rw [if_pos hc] at hq
      exact ih st q hq
    · rw [if_neg hc] at hq
      rcases ih _ q hq with hq2 | hq2
      · rcases List.mem_append.mp hq2 with h2 | h2
        · exact Or.inl h2
        · simp only [List.mem_singleton] at h2
          subst h2
          exact Or.inr hc
      · by_cases ho : ok c
        · simp only [ho, if_true] at hq2
          right
          intro hcontra
          exact hq2 (List.mem_append.mpr (Or.inl hcontra))
        · simpa [ho] using Or.inr hq2

/-- C7: with a fixed candidate set and fixed open behaviour ("no new
devices attached"), a second Scan leaves the registry exactly as the first
left it, and every open/verify/start attempt of the second call is for a
path not already in the registry. -/
theorem scan_idempotent (pool cands : List (List Char))
    (ok : List Char → Bool) :
    scanPool (scanPool pool cands ok) cands ok = scanPool pool cands ok ∧
    ∀ p, p ∈ scanAttempts (scanPool pool cands ok) cands ok →
      p ∉ scanPool pool cands ok := by
  constructor
  · apply scanFold_pool_noop
    intro p hp
    by_cases ho : ok p
    · exact Or.inl (scanFold_pool_of_ok ok cands (pool, []) p hp ho)
    · exact Or.inr (by simpa using ho)
  · intro p hp
    have := scanFold_attempts_not_in_pool ok cands (scanPool pool cands ok, [])
      p hp
    simpa using this

/-- C7 witness: pool initially empty, candidates "a" (opens) and "b"
(fails to open); after the first Scan the registry is {"a"}, and the
second Scan's only attempt, "b", is not in the registry. -/
theorem scan_idempotent_witness :
    scanPool (scanPool [] (["a".toList, "b".toList]) (fun s => s == "a".toList))
        (["a".toList, "b".toList]) (fun s => s == "a".toList) =
      scanPool [] (["a".toList, "b".toList]) (fun s => s == "a".toList) ∧
    "b".toList ∉ scanPool [] (["a".toList, "b".toList])
      (fun s => s == "a".toList) := by
  refine ⟨(scan_idempotent [] (["a".toList, "b".toList])
    (fun s => s == "a".toList)).1, ?_⟩
  exact (scan_idempotent [] (["a".toList, "b".toList])
    (fun s => s == "a".toList)).2 ("b".toList) (by decide)

/-- C10: every port entry Scan returns carries Connected = true, whatever
the pool, the candidates and the state of the underlying links. -/
theorem scanPorts_all_connected (pool cands : List (List Char))
    (ok : List Char → Bool) :
    ∀ e ∈ scanPorts pool cands ok, e.connected = true := by
  intro e he
  simp only [scanPorts, List.mem_map] at he
  obtain ⟨n, _, rfl⟩ := he
  rfl

/-- C10 witness: a registry already holding "a" reports it with
Connected = true even though the open test rejects every path. -/
theorem scanPorts_all_connected_witness :
    (⟨"a".toList, "a".toList, true⟩ : SerialPort) ∈
      scanPorts (["a".toList]) [] (fun _ => false) ∧
    (⟨"a".toList, "a".toList, true⟩ : SerialPort).connected = true := by
  refine ⟨by decide, ?_⟩
  exact scanPorts_all_connected (["a".toList]) [] (fun _ => false) _ (by decide)

/-! ## Event bus theorems -/

/-- C8: Broadcast touches every currently-registered queue independently —
the i-th queue of the pool receives the message appended iff it has free
capacity, and is left untouched otherwise; no queue is added or removed,
the publisher gets no error value (Broadcast is a total function on the
bus state). -/
theorem broadcast_per_subscriber (msg : List Char) (b : Bus) (i : Nat)
    (q : Chan) (h : b.pool[i]? = some q) :
    (broadcastBus msg b).pool[i]? =
      some (if q.buf.length < q.cap then { q with buf := q.buf ++ [msg] }
        else q) ∧
    (broadcastBus msg b).pool.length = b.pool.length := by
  constructor
  · simp only [broadcastBus, List.getElem?_map, h, Option.map_some]
    rfl
  · simp [broadcastBus]

/-- C8 witness: a two-subscriber pool where queue 1 has room and queue 2 is
full — the message reaches queue 1 and is dropped for queue 2. -/
theorem broadcast_per_subscriber_witness :
    (broadcastBus ("m".toList)
        ⟨[⟨1, 2, []⟩, ⟨2, 1, ["x".toList]⟩], []⟩).pool[0]? =
      some ⟨1, 2, ["m".toList]⟩ ∧
    (broadcastBus ("m".toList)
        ⟨[⟨1, 2, []⟩, ⟨2, 1, ["x".toList]⟩], []⟩).pool[1]? =
      some ⟨2, 1, ["x".toList]⟩ := by
  constructor
  · have := (broadcast_per_subscriber ("m".toList)
      ⟨[⟨1, 2, []⟩, ⟨2, 1, ["x".toList]⟩], []⟩ 0 ⟨1, 2, []⟩ (by decide)).1
    simpa using this
  · have := (broadcast_per_subscriber ("m".toList)
      ⟨[⟨1, 2, []⟩, ⟨2, 1, ["x".toList]⟩], []⟩ 1 ⟨2, 1, ["x".toList]⟩
      (by decide)).1
    simpa using this

/-- C9: subscribing a fresh queue and cancelling twice: the first cancel
removes the queue from the registry and records exactly one close; the
second cancel returns the state unchanged — registry as after the first
call, no further close, and no panic (the `none`/panic branch is not
taken). -/
theorem subscribe_cancel_twice (b : Bus) (buffer : Int) (fresh : Nat)
    (hcl : fresh ∉ b.closed) (hp : ∀ c ∈ b.pool, c.id ≠ fresh) :
    ∃ b1, cancelBus fresh (subscribeBus buffer fresh b).2 = some b1 ∧
      b1.pool = b.pool ∧ b1.closed = b.closed ++ [fresh] ∧
      cancelBus fresh b1 = some b1 := by
  refine ⟨⟨b.pool, b.closed ++ [fresh]⟩, ?_, rfl, rfl, ?_⟩
  · have hany : ((subscribeBus buffer fresh b).2).pool.any
        (fun c => c.id == fresh) = true := by
      simp [subscribeBus]
    have hfil : ((subscribeBus buffer fresh b).2).pool.filter
        (fun c => c.id != fresh) = b.pool := by
      simp only [subscribeBus, List.filter_append]
      have h1 : b.pool.filter (fun c => c.id != fresh) = b.pool := by
        apply List.filter_eq_self.mpr
        intro c hc
        simpa using hp c hc
      simp [h1]
    simp only [cancelBus, hany, if_true]
    rw [hfil]
    simp [subscribeBus, hcl]
  · have hany2 : (List.any b.pool (fun c => c.id == fresh)) = false := by
      apply List.any_eq_false.mpr
      intro c hc
      simpa using hp c hc
    simp [cancelBus, hany2]

/-- C9 witness: on an empty bus, subscribe with buffer 5 as channel 0, then
cancel twice. -/
theorem subscribe_cancel_twice_witness :
    ∃ b1, cancelBus 0 (subscribeBus 5 0 ⟨[], []⟩).2 = some b1 ∧
      b1.pool = [] ∧ b1.closed = [0] ∧ cancelBus 0 b1 = some b1 := by
  have h := subscribe_cancel_twice ⟨[], []⟩ 5 0 (by decide) (by simp)
  simpa using h

/-! ## Counterexamples and theorems for the codec, signal and delete claims -/

/-- C1 counterexample: `respDemo` decodes to exactly two fragments, both in
the multi-part group ("+123", ref 7) with total 3, carrying sequence
numbers 1 and 3 only — sequence 2 is missing — yet ListSMS emits the merged
message "ABCD", the concatenation of the two fragments, which equals no
single fragment's text. The claim predicts no merged LogicalSms for this
group. -/
theorem listSMS_merges_incomplete_group :
    parseParts respDemo =
      [⟨5, "REC READ".toList, "+123".toList, "T1".toList, "AB".toList,
        7, 3, 1⟩,
       ⟨6, "REC READ".toList, "+123".toList, "T2".toList, "CD".toList,
        7, 3, 3⟩] ∧
    listSMS respDemo =
      [⟨5, "REC READ".toList, "+123".toList, "T1".toList, "ABCD".toList⟩] := by
  decide

/-- C2 counterexample: for the text `udhSpoof` (U+0500 U+0300 'A' 'B'), the
UCS2 bytes begin with 05 00 03, decodeHexSMS mistakes them for a
concatenation header, and decoding the encoded payload returns "B" with
total 0 — not the original text with total 1. -/
theorem encodeUCS2_roundtrip_fails :
    decodeHexSMS (encodeUCS2 udhSpoof) = (['B'], 0, 0, 65) ∧
    ['B'] ≠ udhSpoof := by
  decide

/-- C4 counterexample: the text-mode GetSignalStrength applies
dBm = -113 + RSSI*2 to the out-of-range RSSI 99 and reports "85 dBm"
instead of rejecting or reporting "unknown". -/
theorem getSignalStrengthText_fabricates_dbm :
    (getSignalStrengthText 99 0).dbm = "85 dBm" ∧
    (getSignalStrengthText 99 0).dbm ≠ "unknown" := by
  constructor
  · rfl
  · decide

/-- C4 amended: RSSI 31 yields "-51 dBm" in both variants, and the
PDU-mode variant (const.go lines 228-250) reports "unknown" for any
out-of-range RSSI; the text-mode variant (lines 589-606) applies the
formula unconditionally, as the counterexample shows. -/
theorem getSignalStrength_dbm :
    (getSignalStrengthText 31 4).dbm = "-51 dBm" ∧
    (getSignalStrengthPdu 31 4).dbm = "-51 dBm" ∧
    ∀ rssi qual : Int, (rssi < 0 ∨ 31 < rssi) →
      (getSignalStrengthPdu rssi qual).dbm = "unknown" := by
  refine ⟨rfl, rfl, ?_⟩
  intro rssi qual h
  have hcond : ¬(0 ≤ rssi ∧ rssi ≤ 31) := by omega
  simp [getSignalStrengthPdu, hcond]

/-- C4 witness: the PDU-mode variant at the out-of-range RSSI 99. -/
theorem getSignalStrength_dbm_witness :
    (getSignalStrengthPdu 99 0).dbm = "unknown" :=
  getSignalStrength_dbm.2.2 99 0 (Or.inr (by norm_num))

/-- C5 counterexample: on the malformed payload " zz" the decoder returns
the trimmed text "zz", not the raw payload " zz" itself. -/
theorem decodeHexSMS_returns_trimmed :
    hexDecode ([' ', 'z', 'z']) = none ∧
    decodeHexSMS ([' ', 'z', 'z']) = (['z', 'z'], 0, 1, 1) ∧
    ['z', 'z'] ≠ [' ', 'z', 'z'] := by
  decide

/-- C5 amended: whenever the trimmed payload fails hex decoding (invalid
digit or odd length — exactly when Go's hex.DecodeString errors),
decodeHexSMS returns the whitespace-trimmed payload as the literal message
text with ref 0, total 1, seq 1, and never fails. -/
theorem decodeHexSMS_malformed (content : List Char)
    (h : hexDecode (trimSpace content) = none) :
    decodeHexSMS content = (trimSpace content, 0, 1, 1) := by
  simp [decodeHexSMS, h]

/-- C5 witness: the odd-length payload "z". -/
theorem decodeHexSMS_malformed_witness :
    decodeHexSMS (['z']) = (['z'], 0, 1, 1) :=
  decodeHexSMS_malformed (['z']) (by decide)

/-- C6 counterexample: against a link that answers "ERROR", the command
exchange ends with the error token and no success token, yet DeleteSMS
reports success (a nil error). -/
theorem deleteSMS_success_on_error_response :
    sendATCommand readsERR 2 = some (CmdRes.ok ("ERROR".toList)) ∧
    containsSub okTok ("ERROR".toList) = false ∧
    containsSub errTok ("ERROR".toList) = true ∧
    deleteSMS 3 readsERR 2 = true := by
  decide

/-- C6 amended: DeleteSMS reports success exactly when the command
exchange returns a response — any terminal token (OK, ERROR or the
prompt), or data accumulated before a hard read error, suffices — and in
particular it reports success even when the response does not contain the
success token. -/
theorem deleteSMS_ignores_content (index : Int) (reads : Nat → ReadEv)
    (fuel : Nat) (resp : List Char)
    (h : sendATCommand reads fuel = some (CmdRes.ok resp))
    (hok : containsSub okTok resp = false) :
    deleteSMS index reads fuel = true := by
  simp [deleteSMS, h]

/-- C6 witness: the "ERROR" link again, through the amended theorem. -/
theorem deleteSMS_ignores_content_witness :
    deleteSMS 7 readsERR 2 = true :=
  deleteSMS_ignores_content 7 readsERR 2 ("ERROR".toList) (by decide) (by decide)

/-! ## Merge-stage emission rule (C1 amended) -/

theorem length_filterMap_eq_length_filter {α β : Type} (f : α → Option β) :
    ∀ l : List α,
      (l.filterMap f).length = (l.filter (fun x => (f x).isSome)).length := by
  intro l
  induction l with
  | nil => rfl
  | cons x t ih =>
    rw [List.filterMap_cons, List.filter_cons]
    cases hf : f x with
    | none => simpa [hf] using ih
    | some y => simpa [hf] using ih

/-- C1 amended: the merge stage emits one merged message per multi-part
group key that has some part — of any total — with matching key and
sequence number 1; completeness of the fragment set is never tested, so a
partial group merges whenever its seq-1 fragment is present, and a group
without a seq-1 part (however complete otherwise) emits nothing. -/
theorem mergedList_emission_rule (parts : List SmsPart) :
    (mergedList parts).length =
      ((groupKeys parts).filter
        (fun k => parts.any
          (fun p => (partKey p == k) && (p.seq == 1)))).length := by
  unfold mergedList
  rw [length_filterMap_eq_length_filter]
  congr 1
  apply List.filter_congr
  intro k _
  cases hf : parts.find? (fun p => (partKey p == k) && (p.seq == 1)) with
  | none =>
    have hnone : ¬ ∃ p ∈ parts, ((partKey p == k) && (p.seq == 1)) = true := by
      intro ⟨p, hp, hpk⟩
      have := List.find?_eq_none.mp hf p hp
      simp [hpk] at this
    have : parts.any (fun p => (partKey p == k) && (p.seq == 1)) = false := by
      rw [← Bool.not_eq_true, List.any_eq_true]
      exact fun hc => hnone hc
    simp [hf, this]
  | some p =>
    have hsome : (parts.find?
        (fun p => (partKey p == k) && (p.seq == 1))).isSome = true := by
      rw [hf]; rfl
    have hex := List.find?_isSome.mp hsome
    have : parts.any (fun p => (partKey p == k) && (p.seq == 1)) = true :=
      List.any_eq_true.mpr hex
    simp [hf, this]

/-! ## Command-loop timeout (C3) -/

theorem sendLoop_timeout_now (timeout : Nat) (reads : Nat → ReadEv)
    (fuel i elapsed : Nat) (acc : List Char) (hf : 1 ≤ fuel)
    (he : timeout < elapsed) :
    sendLoop timeout reads fuel i elapsed acc = some CmdRes.timeoutErr := by
  cases fuel with
  | zero => omega
  | succ f => simp [sendLoop, he]

theorem accUpTo_succ (reads : Nat → ReadEv) (i : Nat) :
    accUpTo reads i ++ (reads i).data = accUpTo reads (i + 1) := by
  simp [accUpTo, List.range_succ]

theorem sendLoop_silent_times_out (timeout : Nat) (reads : Nat → ReadEv)
    (hdt : ∀ j, 1 ≤ (reads j).dt)
    (herr : ∀ j, (reads j).rerr = none)
    (htok : ∀ j, hasToken (accUpTo reads j) = false) :
    ∀ fuel i elapsed, elapsed ≤ timeout → timeout + 2 ≤ fuel + elapsed →
      sendLoop timeout reads fuel i elapsed (accUpTo reads i) =
        some CmdRes.timeoutErr := by
  intro fuel
  induction fuel with
  | zero =>
    intro i elapsed h1 h2
    omega
  | succ f ih =>
    intro i elapsed h1 h2
    have hnotyet : ¬ timeout < elapsed := by omega
    have htok2 : hasToken (accUpTo reads i ++ (reads i).data) = false := by
      rw [accUpTo_succ]
      exact htok (i + 1)
    simp only [sendLoop, if_neg hnotyet, htok2, Bool.and_false,
      Bool.false_eq_true, if_false, herr i]
    rw [accUpTo_succ]
    by_cases hcase : elapsed + (reads i).dt ≤ timeout
    · exact ih (i + 1) (elapsed + (reads i).dt) hcase (by have := hdt i; omega)
    · exact sendLoop_timeout_now timeout reads f (i + 1)
        (elapsed + (reads i).dt) (accUpTo reads (i + 1))
        (by have := hdt i; omega) (by omega)

/-- C3: against a link whose reads never produce an accumulated response
containing a terminal token ("OK", "ERROR" or ">") and never report an
error, sendRawCommand returns the timeout error once the deadline has
passed — within `timeout + 2` loop iterations (each read consumes at least
one millisecond of the deadline), so it never loops forever. -/
theorem sendRawCommand_times_out (timeout : Nat) (reads : Nat → ReadEv)
    (hdt : ∀ j, 1 ≤ (reads j).dt)
    (herr : ∀ j, (reads j).rerr = none)
    (htok : ∀ j, hasToken (accUpTo reads j) = false) :
    sendRawCommand timeout reads (timeout + 2) = some CmdRes.timeoutErr := by
  have h := sendLoop_silent_times_out timeout reads hdt herr htok
    (timeout + 2) 0 0 (by omega) (by omega)
  have hacc : accUpTo reads 0 = [] := by simp [accUpTo]
  rw [hacc] at h
  exact h

theorem accUpTo_silent (j : Nat) : accUpTo readsSilent j = [] := by
  induction j with
  | zero => rfl
  | succ n ih =>
    rw [accUpTo, List.range_succ, List.flatMap_append]
    rw [accUpTo] at ih
    rw [ih]
    rfl

/-- C3 witness: a three-millisecond deadline against the silent link. -/
theorem sendRawCommand_times_out_witness :
    sendRawCommand 3 readsSilent 5 = some CmdRes.timeoutErr :=
  sendRawCommand_times_out 3 readsSilent (fun _ => Nat.le.refl)
    (fun _ => rfl) (fun j => by rw [accUpTo_silent]; rfl)

/-! ## Codec round-trip lemmas (C2 amended) -/

theorem charToNat_ofNat_valid {n : Nat} (h : n.isValidChar) :
    (Char.ofNat n).toNat = n := by
  simp [Char.ofNat, dif_pos h, Char.ofNatAux, Char.toNat, UInt32.toNat]

theorem charOfNat_toNat (c : Char) : Char.ofNat c.toNat = c := by
  have h : c.toNat.isValidChar := c.valid
  apply Char.eq_of_val_eq
  apply UInt32.eq_of_toBitVec_eq
  simp only [Char.ofNat]
  split
  · rfl
  · exact absurd h (by assumption)

theorem hexDigitVal_upper {n : Nat} (h : n < 16) :
    hexDigitVal (hexDigitUpper n) = some n := by
  interval_cases n <;> decide

theorem hexDigitVal_lower {n : Nat} (h : n < 16) :
    hexDigitVal (hexDigitLower n) = some n := by
  interval_cases n <;> decide

theorem isSpaceGo_hexDigitUpper {n : Nat} (h : n < 16) :
    isSpaceGo (hexDigitUpper n) = false := by
  interval_cases n <;> decide

theorem isSpaceGo_hexDigitLower {n : Nat} (h : n < 16) :
    isSpaceGo (hexDigitLower n) = false := by
  interval_cases n <;> decide

theorem dropWhile_eq_self_of_false {p : Char → Bool} {l : List Char}
    (h : ∀ c ∈ l, p c = false) : l.dropWhile p = l := by
  cases l with
  | nil => rfl
  | cons c t =>
    rw [List.dropWhile_cons]
    simp [h c (List.mem_cons_self c t)]

theorem trimSpace_eq_self {s : List Char}
    (h : ∀ c ∈ s, isSpaceGo c = false) : trimSpace s = s := by
  unfold trimSpace
  rw [dropWhile_eq_self_of_false h]
  rw [dropWhile_eq_self_of_false
    (fun c hc => h c (List.mem_reverse.mp hc))]
  exact List.reverse_reverse s

theorem hexDecode_cons2 {c1 c2 : Char} {h1 l1 : Nat} (rest : List Char)
    (hc1 : hexDigitVal c1 = some h1) (hc2 : hexDigitVal c2 = some l1) :
    hexDecode (c1 :: c2 :: rest) =
      (hexDecode rest).map (fun bs => (16 * h1 + l1) :: bs) := by
  cases hr : hexDecode rest with
  | none => simp [hexDecode, hc1, hc2, hr]
  | some bs => simp [hexDecode, hc1, hc2, hr]

theorem hexDecode_hex4 {u : Nat} (hu : u < 65536) (rest : List Char) :
    hexDecode (hex4Upper u ++ rest) =
      (hexDecode rest).map (fun bs => (u / 256) :: (u % 256) :: bs) := by
  have e1 := hexDigitVal_upper (Nat.mod_lt (u / 4096) (by norm_num))
  have e2 := hexDigitVal_upper (Nat.mod_lt (u / 256) (by norm_num))
  have e3 := hexDigitVal_upper (Nat.mod_lt (u / 16) (by norm_num))
  have e4 := hexDigitVal_upper (Nat.mod_lt u (by norm_num))
  show hexDecode (hexDigitUpper (u / 4096 % 16) :: hexDigitUpper (u / 256 % 16)
    :: (hexDigitUpper (u / 16 % 16) :: hexDigitUpper (u % 16) :: rest)) = _
  rw [hexDecode_cons2 _ e1 e2, hexDecode_cons2 _ e3 e4, Option.map_map]
  have hb1 : 16 * (u / 4096 % 16) + u / 256 % 16 = u / 256 := by omega
  have hb2 : 16 * (u / 16 % 16) + u % 16 = u % 256 := by omega
  cases hexDecode rest with
  | none => rfl
  | some bs => simp [hb1, hb2, Function.comp]

theorem utf16EncodeChar_lt (c : Char) : ∀ u ∈ utf16EncodeChar c, u < 65536 := by
  intro u hu
  have hval : c.toNat.isValidChar := c.valid
  by_cases h16 : c.toNat < 65536
  · simp only [utf16EncodeChar, if_pos h16, List.mem_singleton] at hu
    omega
  · simp only [utf16EncodeChar, if_neg h16] at hu
    have hlt : c.toNat < 0x110000 := by
      rcases hval with h | h
      · omega
      · exact h.2
    simp at hu
    rcases hu with h | h <;> omega

theorem utf16Encode_lt (s : List Char) : ∀ u ∈ utf16Encode s, u < 65536 := by
  intro u hu
  rw [utf16Encode, List.mem_flatMap] at hu
  obtain ⟨c, _, hc⟩ := hu
  exact utf16EncodeChar_lt c u hc

theorem hexDecode_flatMap_hex4 :
    ∀ us : List Nat, (∀ u ∈ us, u < 65536) →
      hexDecode (us.flatMap hex4Upper) =
        some (us.flatMap (fun u => [u / 256, u % 256])) := by
  intro us
  induction us with
  | nil => intro _; rfl
  | cons u t ih =>
    intro h
    rw [List.flatMap_cons, List.flatMap_cons]
    rw [hexDecode_hex4 (h u (List.mem_cons_self u t)) _]
    rw [ih (fun v hv => h v (List.mem_cons_of_mem u hv))]
    rfl

theorem hexDecode_encodeUCS2 (s : List Char) :
    hexDecode (encodeUCS2 s) = some (ucs2Bytes s) :=
  hexDecode_flatMap_hex4 (utf16Encode s) (utf16Encode_lt s)

theorem hexDecode_hexEncodeLower :
    ∀ bs : List Nat, (∀ b ∈ bs, b < 256) →
      hexDecode (hexEncodeLower bs) = some bs := by
  intro bs
  induction bs with
  | nil => intro _; rfl
  | cons b t ih =>
    intro h
    have e1 := hexDigitVal_lower (Nat.mod_lt (b / 16) (by norm_num))
    have e2 := hexDigitVal_lower (Nat.mod_lt b (by norm_num))
    have hrest := ih (fun v hv => h v (List.mem_cons_of_mem b hv))
    show hexDecode (hexDigitLower (b / 16 % 16) :: hexDigitLower (b % 16) ::
      hexEncodeLower t) = _
    rw [hexDecode_cons2 _ e1 e2, hrest]
    have hb : 16 * (b / 16 % 16) + b % 16 = b := by
      have := h b (List.mem_cons_self b t)
      omega
    simp [hb]

theorem beUnits_pairs :
    ∀ us : List Nat, beUnits (us.flatMap (fun u => [u / 256, u % 256])) = us := by
  intro us
  induction us with
  | nil => rfl
  | cons u t ih =>
    rw [List.flatMap_cons, List.cons_append, List.cons_append,
      List.nil_append]
    rw [beUnits, ih]
    congr 1
    omega

theorem flatMap_pair_length :
    ∀ us : List Nat,
      (us.flatMap (fun u => [u / 256, u % 256])).length = 2 * us.length := by
  intro us
  induction us with
  | nil => rfl
  | cons u t ih =>
    rw [List.flatMap_cons, List.length_append, ih]
    simp [Nat.mul_succ]
    omega

theorem ucs2Bytes_lt (s : List Char) : ∀ b ∈ ucs2Bytes s, b < 256 := by
  intro b hb
  rw [ucs2Bytes, List.mem_flatMap] at hb
  obtain ⟨u, hu, hbu⟩ := hb
  have := utf16Encode_lt s u hu
  simp at hbu
  rcases hbu with rfl | rfl <;> omega

theorem utf16Decode_cons_scalar {u : Nat}
    (h : u < 0xD800 ∨ 0xE000 ≤ u) (l : List Nat) :
    utf16Decode (u :: l) = Char.ofNat u :: utf16Decode l := by
  have h1 : ¬ (0xD800 ≤ u ∧ u < 0xDC00) := by omega
  have h2 : ¬ (0xDC00 ≤ u ∧ u < 0xE000) := by omega
  cases l with
  | nil =>
    show utf16Decode [u] = _
    simp only [utf16Decode]
    rw [if_neg (by omega)]
  | cons u2 t =>
    simp only [utf16Decode]
    rw [if_neg h1, if_neg h2]

theorem utf16Decode_pair {hi lo : Nat}
    (hh : 0xD800 ≤ hi ∧ hi < 0xDC00) (hl : 0xDC00 ≤ lo ∧ lo < 0xE000)
    (l : List Nat) :
    utf16Decode (hi :: lo :: l) =
      Char.ofNat (0x10000 + (hi - 0xD800) * 0x400 + (lo - 0xDC00)) ::
        utf16Decode l := by
  simp only [utf16Decode]
  rw [if_pos hh, if_pos hl]

theorem utf16Decode_utf16Encode (s : List Char) :
    utf16Decode (utf16Encode s) = s := by
  induction s with
  | nil => rfl
  | cons c t ih =>
    rw [utf16Encode, List.flatMap_cons]
    have hval : c.toNat.isValidChar := c.valid
    have hrest : t.flatMap utf16EncodeChar = utf16Encode t := rfl
    by_cases h16 : c.toNat < 0x10000
    · have henc : utf16EncodeChar c = [c.toNat] := by
        simp [utf16EncodeChar, h16]
      rw [henc, List.cons_append, List.nil_append]
      rw [utf16Decode_cons_scalar (by rcases hval with h | h <;> omega)]
      rw [charOfNat_toNat, hrest, ih]
    · have hlt : c.toNat < 0x110000 := by
        rcases hval with h | h
        · omega
        · exact h.2
      have henc : utf16EncodeChar c =
          [0xD800 + (c.toNat - 0x10000) / 0x400,
           0xDC00 + (c.toNat - 0x10000) % 0x400] := by
        simp [utf16EncodeChar, h16]
      rw [henc, List.cons_append, List.cons_append, List.nil_append]
      rw [utf16Decode_pair ⟨by omega, by omega⟩ ⟨by omega, by omega⟩]
      have harg : 0x10000 +
          (0xD800 + (c.toNat - 0x10000) / 0x400 - 0xD800) * 0x400 +
          (0xDC00 + (c.toNat - 0x10000) % 0x400 - 0xDC00) = c.toNat := by
        omega
      rw [harg, charOfNat_toNat, hrest, ih]

theorem decodeUCS2Hex_hexEncodeLower {bs : List Nat}
    (hlt : ∀ b ∈ bs, b < 256) (hev : bs.length % 2 = 0) :
    decodeUCS2Hex (hexEncodeLower bs) = utf16Decode (beUnits bs) := by
  have hns : ∀ c ∈ hexEncodeLower bs, isSpaceGo c = false := by
    intro c hc
    rw [hexEncodeLower, List.mem_flatMap] at hc
    obtain ⟨b, _, hcb⟩ := hc
    simp at hcb
    rcases hcb with rfl | rfl
    · exact isSpaceGo_hexDigitLower (Nat.mod_lt _ (by norm_num))
    · exact isSpaceGo_hexDigitLower (Nat.mod_lt _ (by norm_num))
  simp only [decodeUCS2Hex, trimSpace_eq_self hns,
    hexDecode_hexEncodeLower bs hlt]
  simp [hev]

/-- C2 amended: encode-then-decode returns the original text with ref 0,
total 1, seq 1 for every Unicode text whose UCS2 byte encoding does not
begin with one of the two concatenation-header patterns decodeHexSMS
recognises; the counterexample shows the round trip genuinely fails on
texts that do spoof a header. -/
theorem decodeHexSMS_encodeUCS2 (s : List Char)
    (hudh : udhHeader (ucs2Bytes s) = false) :
    decodeHexSMS (encodeUCS2 s) = (s, 0, 1, 1) := by
  have hns : ∀ c ∈ encodeUCS2 s, isSpaceGo c = false := by
    intro c hc
    rw [encodeUCS2, List.mem_flatMap] at hc
    obtain ⟨u, _, hcu⟩ := hc
    simp [hex4Upper] at hcu
    rcases hcu with rfl | rfl | rfl | rfl <;>
      exact isSpaceGo_hexDigitUpper (Nat.mod_lt _ (by norm_num))
  have htrim : trimSpace (encodeUCS2 s) = encodeUCS2 s := trimSpace_eq_self hns
  have hdec : hexDecode (encodeUCS2 s) = some (ucs2Bytes s) :=
    hexDecode_encodeUCS2 s
  have h1 : ¬ (6 < (ucs2Bytes s).length ∧ (ucs2Bytes s).getD 0 0 = 5 ∧
      (ucs2Bytes s).getD 1 0 = 0 ∧ (ucs2Bytes s).getD 2 0 = 3) := by
    intro ⟨ha, hb, hc, hd⟩
    have htrue : udhHeader (ucs2Bytes s) = true := by
      rw [udhHeader]
      have : (decide (6 < (ucs2Bytes s).length) &&
          ((ucs2Bytes s).getD 0 0 == 5) && ((ucs2Bytes s).getD 1 0 == 0) &&
          ((ucs2Bytes s).getD 2 0 == 3)) = true := by
        simp only [Bool.and_eq_true, decide_eq_true_eq, beq_iff_eq]
        exact ⟨⟨⟨ha, hb⟩, hc⟩, hd⟩
      rw [this, Bool.true_or]
    rw [htrue] at hudh
    simp at hudh
  have h2 : ¬ (7 < (ucs2Bytes s).length ∧ (ucs2Bytes s).getD 0 0 = 6 ∧
      (ucs2Bytes s).getD 1 0 = 8 ∧ (ucs2Bytes s).getD 2 0 = 4) := by
    intro ⟨ha, hb, hc, hd⟩
    have htrue : udhHeader (ucs2Bytes s) = true := by
      rw [udhHeader]
      have : (decide (7 < (ucs2Bytes s).length) &&
          ((ucs2Bytes s).getD 0 0 == 6) && ((ucs2Bytes s).getD 1 0 == 8) &&
          ((ucs2Bytes s).getD 2 0 == 4)) = true := by
        simp only [Bool.and_eq_true, decide_eq_true_eq, beq_iff_eq]
        exact ⟨⟨⟨ha, hb⟩, hc⟩, hd⟩
      rw [this, Bool.or_true]
    rw [htrue] at hudh
    simp at hudh
  have hev : (ucs2Bytes s).length % 2 = 0 := by
    rw [ucs2Bytes, flatMap_pair_length]
    omega
  simp only [decodeHexSMS, htrim, hdec]
  rw [if_neg h1, if_neg h2]
  have hevcond : ¬ (((ucs2Bytes s).length - 0) % 2 ≠ 0) := by omega
  rw [if_neg hevcond, List.drop_zero]
  rw [decodeUCS2Hex_hexEncodeLower (ucs2Bytes_lt s) hev]
  have hbe : beUnits (ucs2Bytes s) = utf16Encode s :=
    beUnits_pairs (utf16Encode s)
  rw [hbe, utf16Decode_utf16Encode]

/-- C2 witness: the text "H😀" (one BMP character and one surrogate-pair
character); its byte encoding does not spoof a header, and the round trip
returns it exactly with total 1. -/
theorem decodeHexSMS_encodeUCS2_witness :
    udhHeader (ucs2Bytes (['H', Char.ofNat 128512])) = false ∧
    decodeHexSMS (encodeUCS2 (['H', Char.ofNat 128512])) =
      (['H', Char.ofNat 128512], 0, 1, 1) :=
  ⟨by decide, decodeHexSMS_encodeUCS2 (['H', Char.ofNat 128512]) (by decide)⟩
